import Mathlib

/-!
Formal model of `src/ollamatest.ts`.

The development shallowly embeds the parts of the program that the claims
refer to:

* a JSON value type and a model of the JavaScript builtin `JSON.parse`
  (an external runtime primitive, modelled on the JSON grammar; numbers are
  represented exactly as rationals),
* list-of-character search primitives modelling the JavaScript string
  operations `includes` and `split` that `getStreamedResponse` uses
  (lines 158-162),
* the streaming tool-call detector of `getStreamedResponse`
  (lines 153-196), run per model invocation over a list of tokens,
* the conversation-history operations (tool output turn, lines 169-187;
  the assistant-turn append with its `trim` guard, lines 199-206),
* the correlated request client `MCPStdioClient`
  (`sendMessage`/`listTools`/`callTool`/`stop`, lines 50-88), modelled as a
  state machine over the single mutable `transport.onmessage`/`onerror`
  handler pair that `sendMessage` installs,
* the schema adapter `getOllamaCompatibleTools` (lines 90-121).
-/

/-- JSON values. Numbers are represented exactly as rationals (the inputs this
development evaluates stay well inside the range where IEEE doubles are
exact). Objects keep their fields in textual order; duplicate keys are
resolved at access time, taking the last binding, as `JSON.parse` does. -/
inductive Json where
  | null : Json
  | bool (b : Bool) : Json
  | num (q : Rat) : Json
  | str (s : String) : Json
  | arr (elems : List Json) : Json
  | obj (fields : List (String × Json)) : Json

/-- JSON whitespace characters (the four characters the JSON grammar allows
between tokens, which is also what `JSON.parse` skips). -/
def jsonWs (c : Char) : Bool :=
  c = ' ' || c = '\t' || c = '\n' || c = '\r'

/-- Drop leading JSON whitespace. -/
def skipWs (cs : List Char) : List Char :=
  cs.dropWhile jsonWs

/-- Value of a hexadecimal digit, for `\u` escapes. -/
def hexVal (c : Char) : Option Nat :=
  if '0' ≤ c ∧ c ≤ '9' then some (c.toNat - 48)
  else if 'a' ≤ c ∧ c ≤ 'f' then some (c.toNat - 87)
  else if 'A' ≤ c ∧ c ≤ 'F' then some (c.toNat - 55)
  else none

/-- Body of a JSON string literal, after the opening quote: returns the
decoded characters and the remainder after the closing quote. Supports the
JSON escapes; rejects raw control characters, as `JSON.parse` does. -/
def parseStringBody : List Char → Option (List Char × List Char)
  | [] => none
  | '"' :: rest => some ([], rest)
  | '\\' :: 'n' :: rest => (parseStringBody rest).map (fun p => ('\n' :: p.1, p.2))
  | '\\' :: 't' :: rest => (parseStringBody rest).map (fun p => ('\t' :: p.1, p.2))
  | '\\' :: 'r' :: rest => (parseStringBody rest).map (fun p => ('\r' :: p.1, p.2))
  | '\\' :: 'b' :: rest => (parseStringBody rest).map (fun p => ('\x08' :: p.1, p.2))
  | '\\' :: 'f' :: rest => (parseStringBody rest).map (fun p => ('\x0c' :: p.1, p.2))
  | '\\' :: '/' :: rest => (parseStringBody rest).map (fun p => ('/' :: p.1, p.2))
  | '\\' :: '\\' :: rest => (parseStringBody rest).map (fun p => ('\\' :: p.1, p.2))
  | '\\' :: '"' :: rest => (parseStringBody rest).map (fun p => ('"' :: p.1, p.2))
  | '\\' :: 'u' :: h1 :: h2 :: h3 :: h4 :: rest =>
    match hexVal h1, hexVal h2, hexVal h3, hexVal h4 with
    | some a, some b, some c, some d =>
      let n := ((a * 16 + b) * 16 + c) * 16 + d
      if n.isValidChar then
        (parseStringBody rest).map (fun p => (Char.ofNat n :: p.1, p.2))
      else none
    | _, _, _, _ => none
  | '\\' :: _ => none
  | c :: rest =>
    if c.toNat < 32 then none
    else (parseStringBody rest).map (fun p => (c :: p.1, p.2))

/-- Numeric value of a list of decimal digits. -/
def digitsToNat (ds : List Char) : Nat :=
  ds.foldl (fun n c => 10 * n + (c.toNat - 48)) 0

/-- A JSON number literal: optional minus, integer part without leading
zeros, optional fraction, optional exponent; its exact rational value. -/
def parseNumber (cs : List Char) : Option (Json × List Char) :=
  let (neg, cs1) := match cs with
    | '-' :: r => (true, r)
    | _ => (false, cs)
  let intDigits := cs1.takeWhile Char.isDigit
  let cs2 := cs1.drop intDigits.length
  if intDigits = [] then none
  else if 1 < intDigits.length ∧ intDigits.head? = some '0' then none
  else
    let fracStep : Option (List Char × List Char) := match cs2 with
      | '.' :: r =>
        let fd := r.takeWhile Char.isDigit
        if fd = [] then none else some (fd, r.drop fd.length)
      | _ => some ([], cs2)
    match fracStep with
    | none => none
    | some (fracDigits, cs3) =>
      let expStep : Option (Bool × List Char × List Char) := match cs3 with
        | 'e' :: '-' :: r => some (true, r.takeWhile Char.isDigit, r.drop (r.takeWhile Char.isDigit).length)
        | 'e' :: '+' :: r => some (false, r.takeWhile Char.isDigit, r.drop (r.takeWhile Char.isDigit).length)
        | 'e' :: r => some (false, r.takeWhile Char.isDigit, r.drop (r.takeWhile Char.isDigit).length)
        | 'E' :: '-' :: r => some (true, r.takeWhile Char.isDigit, r.drop (r.takeWhile Char.isDigit).length)
        | 'E' :: '+' :: r => some (false, r.takeWhile Char.isDigit, r.drop (r.takeWhile Char.isDigit).length)
        | 'E' :: r => some (false, r.takeWhile Char.isDigit, r.drop (r.takeWhile Char.isDigit).length)
        | _ => some (false, ['0'], cs3)
      match expStep with
      | none => none
      | some (eneg, expDigits, cs4) =>
        if expDigits = [] then none
        else
          let base : Rat :=
            (digitsToNat intDigits : Rat) +
              (digitsToNat fracDigits : Rat) / ((10 : Rat) ^ fracDigits.length)
          let scaled : Rat :=
            if eneg then base / ((10 : Rat) ^ digitsToNat expDigits)
            else base * ((10 : Rat) ^ digitsToNat expDigits)
          some (Json.num (if neg then -scaled else scaled), cs4)

mutual

/-- One JSON value, fuel-bounded: the model of the recursive descent that
`JSON.parse` performs. Every recursive call decreases the fuel; the top-level
entry point supplies more fuel than any input of that length can consume. -/
def parseVal (fuel : Nat) (cs : List Char) : Option (Json × List Char) :=
  match fuel with
  | 0 => none
  | fuel' + 1 =>
    match skipWs cs with
    | 'n' :: 'u' :: 'l' :: 'l' :: rest => some (Json.null, rest)
    | 't' :: 'r' :: 'u' :: 'e' :: rest => some (Json.bool true, rest)
    | 'f' :: 'a' :: 'l' :: 's' :: 'e' :: rest => some (Json.bool false, rest)
    | '"' :: rest => (parseStringBody rest).map (fun p => (Json.str (String.mk p.1), p.2))
    | '\x7b' :: rest => parseObjBody fuel' (skipWs rest)
    | '[' :: rest => parseArrBody fuel' (skipWs rest)
    | other => parseNumber other

/-- Object body after the opening brace (whitespace already skipped). -/
def parseObjBody (fuel : Nat) (cs : List Char) : Option (Json × List Char) :=
  match fuel with
  | 0 => none
  | fuel' + 1 =>
    match cs with
    | '\x7d' :: rest => some (Json.obj [], rest)
    | _ => parseMembers fuel' cs []

/-- Members of a non-empty object: key, colon, value, then comma or the
closing brace. -/
def parseMembers (fuel : Nat) (cs : List Char) (acc : List (String × Json)) :
    Option (Json × List Char) :=
  match fuel with
  | 0 => none
  | fuel' + 1 =>
    match skipWs cs with
    | '"' :: rest =>
      match parseStringBody rest with
      | none => none
      | some (key, afterKey) =>
        match skipWs afterKey with
        | ':' :: afterColon =>
          match parseVal fuel' afterColon with
          | none => none
          | some (v, afterVal) =>
            let acc' := acc ++ [(String.mk key, v)]
            match skipWs afterVal with
            | ',' :: afterComma => parseMembers fuel' afterComma acc'
            | '\x7d' :: rest' => some (Json.obj acc', rest')
            | _ => none
        | _ => none
    | _ => none

/-- Array body after the opening bracket (whitespace already skipped). -/
def parseArrBody (fuel : Nat) (cs : List Char) : Option (Json × List Char) :=
  match fuel with
  | 0 => none
  | fuel' + 1 =>
    match cs with
    | ']' :: rest => some (Json.arr [], rest)
    | _ => parseElems fuel' cs []

/-- Elements of a non-empty array: value, then comma or the closing
bracket. -/
def parseElems (fuel : Nat) (cs : List Char) (acc : List Json) :
    Option (Json × List Char) :=
  match fuel with
  | 0 => none
  | fuel' + 1 =>
    match parseVal fuel' cs with
    | none => none
    | some (v, afterVal) =>
      let acc' := acc ++ [v]
      match skipWs afterVal with
      | ',' :: afterComma => parseElems fuel' afterComma acc'
      | ']' :: rest' => some (Json.arr acc', rest')
      | _ => none

end

/-- Model of `JSON.parse` on a character list: one complete JSON value with
nothing but whitespace after it, else failure (the JavaScript builtin throws,
which the caller at line 190 catches). The fuel `4 * length + 8` exceeds the
recursion depth any input of that length can force. -/
def parseJson (cs : List Char) : Option Json :=
  match parseVal (4 * cs.length + 8) cs with
  | some (v, rest) => if skipWs rest = [] then some v else none
  | none => none

/-- JavaScript property access `v.k` on a parsed JSON value: defined only on
objects, last binding wins, anything else is `undefined` (`none`). -/
def getField (v : Json) (k : String) : Option Json :=
  match v with
  | Json.obj fields => (fields.reverse.find? (fun p => p.1 == k)).map (·.2)
  | _ => none

/-- JavaScript truthiness of a parsed JSON value: `null`, `false`, `0` and
the empty string are falsy; every other value, including `\x7b\x7d` and `[]`,
is truthy. -/
def jsTruthy : Json → Bool
  | Json.null => false
  | Json.bool b => b
  | Json.num q => decide (q ≠ 0)
  | Json.str s => decide (s ≠ "")
  | Json.arr _ => true
  | Json.obj _ => true

/-- Truthiness of a possibly-absent value: `undefined` is falsy. This is the
test `jsonContent.name && jsonContent.arguments` at line 166 performs on each
field. -/
def truthyOpt : Option Json → Bool
  | none => false
  | some v => jsTruthy v

/-- Boolean prefix test on character lists (the primitive under the
`split`/`includes` models below). -/
def hasPre : List Char → List Char → Bool
  | [], _ => true
  | _ :: _, [] => false
  | a :: as, b :: bs => if a = b then hasPre as bs else false

/-- Model of JavaScript `s.includes(pat)` for a non-empty `pat`: does `pat`
occur as a contiguous substring of `s`? -/
def containsSub (pat : List Char) : List Char → Bool
  | [] => hasPre pat []
  | c :: rest => hasPre pat (c :: rest) || containsSub pat rest

/-- The suffix of `s` after the first occurrence of `pat`, if `pat` occurs.
`afterFirst pat s = some s1` captures `s.split(pat).length > 1` together
with the region the remaining parts are cut from. -/
def afterFirst (pat : List Char) : List Char → Option (List Char)
  | [] => none
  | c :: rest =>
    if hasPre pat (c :: rest) then some ((c :: rest).drop pat.length)
    else afterFirst pat rest

/-- The part of `s` before the first occurrence of `pat`, if `pat` occurs.
Applied to the suffix produced by `afterFirst`, this yields the second entry
of a JavaScript `split`: the segment between the first occurrence and the
next one (both searches scan left to right without overlap, as `split`
does). -/
def beforeFirst (pat : List Char) : List Char → Option (List Char)
  | [] => none
  | c :: rest =>
    if hasPre pat (c :: rest) then some []
    else (beforeFirst pat rest).map (fun b => c :: b)

/-- The opening fence `fullContent.split` cuts on at line 159. -/
def opFence : List Char := "```json\n".data

/-- The marker of the first `includes` test at line 158. -/
def opMarker : List Char := "```json".data

/-- The closing fence: the second `includes` test at line 158 and the inner
`split` at line 161. -/
def closeFence : List Char := "```".data

/-- The candidate tool-call text the code extracts from the accumulated
stream, when it extracts one: lines 158-162.
`containsSub opMarker s && containsSub closeFence s` is the guard at
line 158; `afterFirst opFence s = some s1` is `parts.length > 1` for
`parts = fullContent.split(&#96;&#96;&#96;json\n)` with `s1` the text after the first
fence; `(beforeFirst opFence s1).getD s1` is `parts[1]` (cut short at the
next opening fence, if any); `beforeFirst closeFence` of that is
`jsonParts[0]` under the guard `jsonParts.length > 1`. -/
def extractBlock (s : List Char) : Option (List Char) :=
  if containsSub opMarker s && containsSub closeFence s then
    match afterFirst opFence s with
    | some s1 => beforeFirst closeFence ((beforeFirst opFence s1).getD s1)
    | none => none
  else none

/-- Key of the first field the dispatch test reads at line 166. -/
def nameKey : String := "name"

/-- Key of the second field the dispatch test reads at line 166. -/
def argumentsKey : String := "arguments"

/-- One detection check on the accumulated text, lines 158-196: extract the
candidate block, parse it, and dispatch when `jsonContent.name &&
jsonContent.arguments` is truthy. `none` covers every way the code keeps
streaming: no complete block, a JSON parse failure (caught at line 190), or
a parsed object whose two fields are not both truthy. -/
def detectToolCall (s : List Char) : Option Json :=
  match extractBlock s with
  | none => none
  | some chunk =>
    match parseJson chunk with
    | none => none
    | some v =>
      if truthyOpt (getField v nameKey) && truthyOpt (getField v argumentsKey) then some v
      else none

/-- Outcome of one model invocation of `getStreamedResponse`: either the
stream ends and the accumulated text is the result (line 199), or a tool
call was found and the invocation hands off to dispatch (lines 166-187),
leaving the loop by `return`. -/
inductive StreamOutcome where
  | done (text : List Char) : StreamOutcome
  | dispatching (payload : Json) : StreamOutcome

/-- The token loop of `getStreamedResponse` (lines 153-199): append each
token to the accumulator and run the detection check; dispatch ends the
invocation, otherwise the final accumulator is returned. -/
def runDetect (toks : List (List Char)) (acc : List Char) : StreamOutcome :=
  match toks with
  | [] => StreamOutcome.done acc
  | t :: ts =>
    let acc' := acc ++ t
    match detectToolCall acc' with
    | some v => StreamOutcome.dispatching v
    | none => runDetect ts acc'

/-- Concatenation of a token list: the text the stream assembles to. -/
def joinList (ts : List (List Char)) : List Char := ts.flatten

/-- Every accumulator value the token loop inspects, starting from `acc`:
one entry per processed token. -/
def accumsFrom (acc : List Char) : List (List Char) → List (List Char)
  | [] => []
  | t :: ts => (acc ++ t) :: accumsFrom (acc ++ t) ts

/-- The one-character-per-token partition of a text. -/
def charTokens (s : String) : List (List Char) :=
  s.data.map (fun c => [c])

/-- One turn of the conversation history (`chatHistory` entries,
line 129). -/
structure ChatTurn where
  role : String
  content : List Char
  deriving DecidableEq

/-- Whitespace as JavaScript `String.prototype.trim` removes it (the ASCII
white-space and line-terminator characters plus no-break space and the BOM;
the remaining Unicode space separators do not occur in this development). -/
def jsWs (c : Char) : Bool :=
  c = ' ' || c = '\t' || c = '\n' || c = '\r' || c = '\x0b' || c = '\x0c' ||
    c = ' ' || c = '﻿'

/-- Model of JavaScript `text.trim()`. -/
def jsTrim (s : List Char) : List Char :=
  ((s.dropWhile jsWs).reverse.dropWhile jsWs).reverse

/-- The assistant-turn append at lines 203-206: `finalContent` is pushed as
an assistant turn only when `finalContent.trim()` is truthy, that is,
non-empty. -/
def appendAssistantTurn (hist : List ChatTurn) (text : List Char) : List ChatTurn :=
  if jsTrim text = [] then hist
  else hist ++ [⟨"assistant", text⟩]

/-- One entry of a tool result's `content` array (interface at line 173 and
line 180: only the `text` field is read). -/
structure ToolContentItem where
  text : List Char
  deriving DecidableEq

/-- The peer's tool result shape: `isError` flag and `content` array. -/
structure ToolCallResult where
  isError : Bool
  content : List ToolContentItem
  deriving DecidableEq

/-- The history update after a tool call returns, lines 171-187: on success
push one user turn holding the joined content texts under a `Tool <name>
output:` header; on error push one user turn with the first content entry's
text. `none` models the crash the error branch hits when `content` is empty
(`result.content[0].text` on an empty array). -/
def handleToolResult (hist : List ChatTurn) (toolName : List Char)
    (result : ToolCallResult) : Option (List ChatTurn) :=
  if result.isError = false then
    let toolOutput := List.intercalate ['\n'] (result.content.map (·.text))
    some (hist ++ [⟨"user", "Tool ".data ++ toolName ++ " output:\n".data ++ toolOutput⟩])
  else
    match result.content with
    | [] => none
    | c :: _ =>
      some (hist ++ [⟨"user", "Tool ".data ++ toolName ++ " error: ".data ++ c.text⟩])

/-- A JSON-RPC request message as `sendMessage` writes it (lines 64-83):
`jsonrpc` is the constant `2.0` and is left implicit. -/
structure JsonRpcRequestMsg where
  id : Nat
  method : String
  params : Json

/-- A JSON-RPC response message as the inbound handler at lines 52-58 reads
it: only the `error` and `result` fields are consulted; the `id` field is
carried but, notably, never read by `sendMessage`. -/
structure JsonRpcResponseMsg where
  id : Nat
  result : Option Json
  error : Option String

/-- The final state of one `sendMessage` promise. -/
inductive ReqOutcome where
  | resolvedWith (result : Option Json) : ReqOutcome
  | rejectedRemote (message : String) : ReqOutcome
  | rejectedTransport : ReqOutcome

/-- One in-flight or settled `sendMessage` promise: the correlation id its
request message carried, and its settlement (`none` while pending). A
promise settles at most once; later settlement attempts are ignored. -/
structure PendingEntry where
  sentId : Nat
  outcome : Option ReqOutcome

/-- State of the `MCPStdioClient` promise plumbing: the promises created so
far, in send order, and which promise's `onmessage`/`onerror` callbacks are
currently installed on the transport. Each `sendMessage` call (lines 50-62)
overwrites `this.transport.onmessage` and `this.transport.onerror` with
closures over its own `resolve`/`reject`, so exactly the most recent
sender's callbacks are installed. -/
structure ClientState where
  pending : List PendingEntry
  handlerIdx : Option Nat

/-- A client with no requests sent yet. -/
def initClient : ClientState := ⟨[], none⟩

/-- Model of `sendMessage` (lines 50-62): create a pending promise
remembering the message's id, and install this promise's callbacks as THE
transport handler, replacing whichever promise's callbacks were installed
before. The message's correlation id is whatever the caller put in the
message; `sendMessage` neither assigns nor records it anywhere else. -/
def sendMessage (st : ClientState) (msg : JsonRpcRequestMsg) : ClientState :=
  ⟨st.pending ++ [⟨msg.id, none⟩], some st.pending.length⟩

/-- Settle the promise at index `i` with outcome `o`, if it is still
pending; a settled promise is left unchanged (JavaScript promises ignore
repeated resolution). -/
def settleAt (st : ClientState) (i : Nat) (o : ReqOutcome) : ClientState :=
  let upd := fun (je : Nat × PendingEntry) =>
    if je.1 = i then
      match je.2.outcome with
      | none => (⟨je.2.sentId, some o⟩ : PendingEntry)
      | some _ => je.2
    else je.2
  ⟨(st.pending.enum).map upd, st.handlerIdx⟩

/-- Delivery of one inbound response message: the transport invokes the
single currently installed `onmessage` callback (lines 52-58). That callback
rejects on a truthy `response.error` and otherwise resolves with
`response.result`; the response's correlation id is ignored, and promises
whose callbacks were overwritten by a later `sendMessage` are unreachable. -/
def deliverResponse (st : ClientState) (resp : JsonRpcResponseMsg) : ClientState :=
  match st.handlerIdx with
  | none => st
  | some i =>
    match resp.error with
    | some m => settleAt st i (ReqOutcome.rejectedRemote ("MCP Error: " ++ m))
    | none => settleAt st i (ReqOutcome.resolvedWith resp.result)

/-- A transport-level failure surfacing through `transport.onerror`
(line 59): it reaches only the single currently installed handler. -/
def fireTransportError (st : ClientState) : ClientState :=
  match st.handlerIdx with
  | none => st
  | some i => settleAt st i ReqOutcome.rejectedTransport

/-- Model of `stop` (lines 85-88): the code only kills the child process.
The model charitably lets the resulting stream teardown surface as a
transport error to the one installed `onerror` callback; the code itself
wires no `onclose` handler and touches no promise directly, so no other
pending promise can be reached. -/
def stopClient (st : ClientState) : ClientState :=
  fireTransportError st

/-- The fixed request message `listTools` sends (lines 64-71): correlation
id hardcoded to `1` on every call. -/
def listToolsMsg : JsonRpcRequestMsg :=
  ⟨1, "tools/list", Json.obj []⟩

/-- The request message `callTool` sends (lines 73-83): correlation id
hardcoded to `2` on every call. -/
def callToolMsg (toolName : String) (args : Json) : JsonRpcRequestMsg :=
  ⟨2, "tools/call", Json.obj [("name", Json.str toolName), ("arguments", args)]⟩

/-- One declared parameter of an MCP tool's input schema, as the adapter
reads it (lines 101-107): a `type`, an optional `description`, and whatever
other fields the peer declared (`enum`, formats, nested schemas), which the
adapter never looks at. -/
structure ParamProp where
  type : Option String
  description : Option String
  extra : List (String × Json)

/-- An MCP tool's input schema: optional `properties` map and optional
`required` list (lines 97-108). -/
structure ToolInputSchema where
  properties : Option (List (String × ParamProp))
  required : Option (List String)

/-- An MCP tool definition as `listTools` returns it. -/
structure MCPToolDef where
  name : String
  description : String
  inputSchema : ToolInputSchema

/-- A converted per-parameter schema: only `type` and `description`
survive. -/
structure OllamaParamProp where
  type : Option String
  description : Option String
  deriving DecidableEq

/-- The `parameters` object the adapter builds (lines 94-98). -/
structure OllamaParameters where
  type : String
  properties : List (String × OllamaParamProp)
  required : List String
  deriving DecidableEq

/-- The `function` object the adapter builds (lines 112-116). -/
structure OllamaFunctionDef where
  name : String
  description : String
  parameters : OllamaParameters
  deriving DecidableEq

/-- One converted tool entry (lines 110-117). -/
structure OllamaToolDef where
  type : String
  function : OllamaFunctionDef
  deriving DecidableEq

/-- The JavaScript expression `prop.description || undefined` at line 105:
an absent description stays absent, and a present but falsy one — the empty
string — becomes `undefined` as well. -/
def descOrUndef : Option String → Option String
  | some s => if s = "" then none else some s
  | none => none

/-- The per-tool conversion inside `getOllamaCompatibleTools`
(lines 92-118): `type` is the constant `function`; `name` and `description`
are copied from the tool; `parameters.type` is the constant `object`;
`parameters.required` is `tool.inputSchema.required || []` (the empty array
when absent — a present empty array is truthy and is kept verbatim); each
declared property contributes exactly `type` (copied verbatim) and
`description` (via `prop.description || undefined`). -/
def convertTool (tool : MCPToolDef) : OllamaToolDef :=
  ⟨"function",
    ⟨tool.name, tool.description,
      ⟨"object",
        (tool.inputSchema.properties.getD []).map
          (fun kp => (kp.1, ⟨kp.2.type, descOrUndef kp.2.description⟩)),
        tool.inputSchema.required.getD []⟩⟩⟩

/-- Model of `getOllamaCompatibleTools` applied to a fetched tool list
(line 92): the conversion maps over the tools. -/
def getOllamaCompatibleTools (tools : List MCPToolDef) : List OllamaToolDef :=
  tools.map convertTool

/-- Modelled from the spec: the schema adapter as claim C8 words it — for
each tool copy `name` and `description` verbatim, for each declared
parameter copy exactly its `type` and its `description`, copy the `required`
list verbatim and substitute the empty list when it is absent. -/
def specSchemaAdapter (tool : MCPToolDef) : OllamaToolDef :=
  ⟨"function",
    ⟨tool.name, tool.description,
      ⟨"object",
        (tool.inputSchema.properties.getD []).map
          (fun kp => (kp.1, ⟨kp.2.type, kp.2.description⟩)),
        tool.inputSchema.required.getD []⟩⟩⟩

/-- Modelled from the amended claim C8: as `specSchemaAdapter`, except that
a parameter description equal to the empty string is dropped (it is falsy,
so the adapter's `prop.description || undefined` replaces it by
`undefined`). -/
def specSchemaAdapterAmended (tool : MCPToolDef) : OllamaToolDef :=
  ⟨"function",
    ⟨tool.name, tool.description,
      ⟨"object",
        (tool.inputSchema.properties.getD []).map
          (fun kp =>
            (kp.1, ⟨kp.2.type,
              match kp.2.description with
              | none => none
              | some d => if d = "" then none else some d⟩)),
        tool.inputSchema.required.getD []⟩⟩⟩

/-- The spec's example text: one fenced tool-call block and nothing else. -/
def exampleCallText : String :=
  "```json\n\x7b\"name\":\"x\",\"arguments\":\x7b\x7d\x7d\n```"

/-- The parsed payload of the example block. -/
def toolCallX : Json :=
  Json.obj [("name", Json.str "x"), ("arguments", Json.obj [])]

/-- A text containing a complete fenced tool-call block whose closing fence
is immediately followed by `json` and a newline, so that the closing fence
is simultaneously the start of a second opening fence. -/
def fenceReuseText : String :=
  "```json\n\x7b\"name\":\"x\",\"arguments\":\x7b\x7d\x7d```json\nZ"

/-- A stream text whose first fenced block is not JSON and which later
carries a complete, valid fenced tool-call block. -/
def badThenGoodText : String :=
  "```json\nnotjson\n``` and then ```json\n\x7b\"name\":\"x\",\"arguments\":\x7b\x7d\x7d\n```"

/-- The chunk the detector extracts from `badThenGoodText`: the first
block's content, which fails to parse. -/
def badChunk : List Char := "notjson\n".data

/-- A fenced block whose JSON object carries both a `name` field and an
`arguments` field, but with `name` bound to the empty string. -/
def emptyNameText : String :=
  "```json\n\x7b\"name\":\"\",\"arguments\":\x7b\x7d\x7d\n```"

/-- The parsed object of `emptyNameText`. -/
def emptyNameValue : Json :=
  Json.obj [("name", Json.str ""), ("arguments", Json.obj [])]

/-- A fenced block carrying a truthy tool call named `y`. -/
def callYText : String :=
  "```json\n\x7b\"name\":\"y\",\"arguments\":\x7b\x7d\x7d\n```"

/-- The parsed payload of `callYText`. -/
def toolCallY : Json :=
  Json.obj [("name", Json.str "y"), ("arguments", Json.obj [])]

/-- A request message with a caller-chosen correlation id and empty params,
as `sendMessage` accepts (it writes whatever message it is handed). -/
def plainRequest (i : Nat) : JsonRpcRequestMsg :=
  ⟨i, "tools/call", Json.obj []⟩

/-- Client run for claim C1: two requests with distinct correlation ids 10
and 20 are dispatched concurrently, then the response carrying id 10
arrives first. -/
def c1Run : ClientState :=
  deliverResponse
    (sendMessage (sendMessage initClient (plainRequest 10)) (plainRequest 20))
    ⟨10, some (Json.str "result-for-10"), none⟩

/-- Client run for claim C2: two `listTools` requests outstanding at the
same time. -/
def c2Run : ClientState :=
  sendMessage (sendMessage initClient listToolsMsg) listToolsMsg

/-- Client run for claim C3: a `listTools` and a `callTool` request are
outstanding when the channel is stopped. -/
def c3Run : ClientState :=
  stopClient (sendMessage (sendMessage initClient listToolsMsg)
    (callToolMsg "t" (Json.obj [])))

/-- Tool definition for claim C8: one parameter of type `string` whose
declared description is the empty string, plus an `enum` field the adapter
must drop; no `required` list. -/
def c8Tool : MCPToolDef :=
  ⟨"tool-a", "does a",
    ⟨some [("a", ⟨some "string", some "", [("enum", Json.arr [Json.str "x"])]⟩)],
      none⟩⟩

/-- Peer reply for claim C9. -/
def okReply : ToolCallResult := ⟨false, [⟨"ok".data⟩]⟩

/-- The chunk extracted from `callYText`. -/
def callYChunk : List Char := "\x7b\"name\":\"y\",\"arguments\":\x7b\x7d\x7d\n".data

/-- The chunk extracted from `emptyNameText`. -/
def emptyNameChunk : List Char := "\x7b\"name\":\"\",\"arguments\":\x7b\x7d\x7d\n".data

/-- A prefix test succeeds exactly when the pattern can be completed to the
whole list. -/
theorem hasPre_spec : ∀ (p s : List Char), hasPre p s = true ↔ ∃ t, s = p ++ t := by
  intro p
  induction p with
  | nil =>
    intro s
    constructor
    · intro _
      exact ⟨s, rfl⟩
    · intro _
      rfl
  | cons a as ih =>
    intro s
    cases s with
    | nil =>
      constructor
      · intro h
        simp [hasPre] at h
      · rintro ⟨t, ht⟩
        simp at ht
    | cons b bs =>
      constructor
      · intro h
        simp only [hasPre] at h
        by_cases hab : a = b
        · subst hab
          rw [if_pos rfl] at h
          obtain ⟨t, rfl⟩ := (ih bs).mp h
          exact ⟨t, rfl⟩
        · rw [if_neg hab] at h
          cases h
      · rintro ⟨t, ht⟩
        simp only [List.cons_append, List.cons.injEq] at ht
        obtain ⟨rfl, rfl⟩ := ht
        simp only [hasPre, if_pos rfl]
        exact (ih _).mpr ⟨t, rfl⟩

/-- A prefix of `s` is a prefix of any extension of `s`. -/
theorem hasPre_append (p s q : List Char) (h : hasPre p s = true) :
    hasPre p (s ++ q) = true := by
  obtain ⟨t, rfl⟩ := (hasPre_spec p s).mp h
  exact (hasPre_spec p _).mpr ⟨t ++ q, by rw [List.append_assoc]⟩

/-- A prefix is no longer than the list it is a prefix of. -/
theorem hasPre_length (p s : List Char) (h : hasPre p s = true) :
    p.length ≤ s.length := by
  obtain ⟨t, rfl⟩ := (hasPre_spec p s).mp h
  simp [List.length_append]

/-- A prefix of `s ++ q` that fits inside `s` is a prefix of `s`. -/
theorem hasPre_of_append_le : ∀ (p s q : List Char),
    hasPre p (s ++ q) = true → p.length ≤ s.length → hasPre p s = true := by
  intro p
  induction p with
  | nil =>
    intro s q _ _
    rfl
  | cons a as ih =>
    intro s q h hlen
    cases s with
    | nil =>
      simp [List.length] at hlen
    | cons b bs =>
      simp only [List.cons_append, hasPre] at h ⊢
      by_cases hab : a = b
      · subst hab
        rw [if_pos rfl] at h ⊢
        have hlen' : as.length ≤ bs.length := by
          simp [List.length_cons] at hlen
          omega
        exact ih bs q h hlen'
      · rw [if_neg hab] at h
        cases h

/-- The empty pattern occurs in every list. -/
theorem containsSub_nilPat : ∀ s : List Char, containsSub [] s = true := by
  intro s
  cases s <;> simp [containsSub, hasPre]

/-- An occurrence survives appending more text on the right. -/
theorem containsSub_append_right : ∀ (pat s q : List Char),
    containsSub pat s = true → containsSub pat (s ++ q) = true := by
  intro pat s
  induction s with
  | nil =>
    intro q h
    have hp : pat = [] := by
      cases pat with
      | nil => rfl
      | cons a as => simp [containsSub, hasPre] at h
    subst hp
    exact containsSub_nilPat q
  | cons c rest ih =>
    intro q h
    simp only [containsSub, Bool.or_eq_true] at h
    simp only [List.cons_append, containsSub, Bool.or_eq_true]
    rcases h with h | h
    · exact Or.inl (hasPre_append pat (c :: rest) q h)
    · exact Or.inr (ih q h)

/-- Unpacking `afterFirst`: the input splits as prefix, pattern, suffix. -/
theorem afterFirst_spec : ∀ (pat s s1 : List Char),
    afterFirst pat s = some s1 → ∃ pre, s = pre ++ pat ++ s1 := by
  intro pat s
  induction s with
  | nil =>
    intro s1 h
    simp [afterFirst] at h
  | cons c rest ih =>
    intro s1 h
    simp only [afterFirst] at h
    cases hp : hasPre pat (c :: rest) with
    | true =>
      rw [hp] at h
      simp only [if_pos] at h
      obtain ⟨t, ht⟩ := (hasPre_spec pat (c :: rest)).mp hp
      have hdrop : (c :: rest).drop pat.length = t := by
        rw [ht]
        exact List.drop_left pat t
      refine ⟨[], ?_⟩
      rw [List.nil_append, ht]
      have : s1 = t := by
        rw [← Option.some.injEq] at hdrop
        rw [hdrop] at h
        exact (Option.some.injEq _ _).mp h.symm
      rw [this]
    | false =>
      rw [hp] at h
      simp only [Bool.false_eq_true, if_false] at h
      obtain ⟨pre, hpre⟩ := ih s1 h
      exact ⟨c :: pre, by rw [List.cons_append, List.cons_append, ← hpre]⟩

/-- The first occurrence of a pattern, and the suffix after it, are stable
under appending more text: the appended text lands at the end of the
suffix. -/
theorem afterFirst_append : ∀ (pat s q s1 : List Char),
    afterFirst pat s = some s1 → afterFirst pat (s ++ q) = some (s1 ++ q) := by
  intro pat s
  induction s with
  | nil =>
    intro q s1 h
    simp [afterFirst] at h
  | cons c rest ih =>
    intro q s1 h
    simp only [afterFirst] at h
    cases hp : hasPre pat (c :: rest) with
    | true =>
      rw [hp] at h
      simp only [if_pos] at h
      obtain ⟨t, ht⟩ := (hasPre_spec pat (c :: rest)).mp hp
      have hs1 : s1 = t := by
        have hdrop : (c :: rest).drop pat.length = t := by
          rw [ht]
          exact List.drop_left pat t
        rw [hdrop] at h
        exact ((Option.some.injEq _ _).mp h).symm
      have hp2 : hasPre pat ((c :: rest) ++ q) = true := hasPre_append pat (c :: rest) q hp
      show afterFirst pat (c :: (rest ++ q)) = some (s1 ++ q)
      simp only [afterFirst]
      rw [show (c :: (rest ++ q)) = (c :: rest) ++ q from rfl, hp2]
      simp only [if_pos]
      have : ((c :: rest) ++ q).drop pat.length = t ++ q := by
        rw [ht, List.append_assoc]
        exact List.drop_left pat (t ++ q)
      rw [this, hs1]
    | false =>
      rw [hp] at h
      simp only [Bool.false_eq_true, if_false] at h
      have hlen : pat.length ≤ rest.length := by
        obtain ⟨pre, hpre⟩ := afterFirst_spec pat rest s1 h
        rw [hpre]
        simp [List.length_append]
        omega
      have hp2 : hasPre pat ((c :: rest) ++ q) = false := by
        cases hq : hasPre pat ((c :: rest) ++ q) with
        | false => rfl
        | true =>
          have := hasPre_of_append_le pat (c :: rest) q hq
            (by simp [List.length_cons]; omega)
          rw [this] at hp
          cases hp
      show afterFirst pat (c :: (rest ++ q)) = some (s1 ++ q)
      simp only [afterFirst]
      rw [show (c :: (rest ++ q)) = (c :: rest) ++ q from rfl, hp2]
      simp only [Bool.false_eq_true, if_false]
      exact ih q s1 h

/-- Unpacking `beforeFirst`: the input splits as the returned part, the
pattern, and a suffix. -/
theorem beforeFirst_spec : ∀ (pat s b : List Char),
    beforeFirst pat s = some b → ∃ t, s = b ++ pat ++ t := by
  intro pat s
  induction s with
  | nil =>
    intro b h
    simp [beforeFirst] at h
  | cons c rest ih =>
    intro b h
    simp only [beforeFirst] at h
    cases hp : hasPre pat (c :: rest) with
    | true =>
      rw [hp] at h
      simp only [if_pos] at h
      obtain ⟨t, ht⟩ := (hasPre_spec pat (c :: rest)).mp hp
      have hb : b = [] := ((Option.some.injEq _ _).mp h).symm
      subst hb
      exact ⟨t, by rw [List.nil_append, ht]⟩
    | false =>
      rw [hp] at h
      simp only [Bool.false_eq_true, if_false] at h
      rw [Option.map_eq_some'] at h
      obtain ⟨b0, hb0, hb⟩ := h
      obtain ⟨t, ht⟩ := ih b0 hb0
      subst hb
      exact ⟨t, by rw [List.cons_append, List.cons_append, ← ht]⟩

/-- The part before the first occurrence of a pattern is stable under
appending more text on the right. -/
theorem beforeFirst_append : ∀ (pat s q b : List Char),
    beforeFirst pat s = some b → beforeFirst pat (s ++ q) = some b := by
  intro pat s
  induction s with
  | nil =>
    intro q b h
    simp [beforeFirst] at h
  | cons c rest ih =>
    intro q b h
    simp only [beforeFirst] at h
    cases hp : hasPre pat (c :: rest) with
    | true =>
      rw [hp] at h
      simp only [if_pos] at h
      have hp2 : hasPre pat ((c :: rest) ++ q) = true := hasPre_append pat (c :: rest) q hp
      show beforeFirst pat (c :: (rest ++ q)) = some b
      simp only [beforeFirst]
      rw [show (c :: (rest ++ q)) = (c :: rest) ++ q from rfl, hp2]
      simp only [if_pos]
      exact h
    | false =>
      rw [hp] at h
      simp only [Bool.false_eq_true, if_false] at h
      rw [Option.map_eq_some'] at h
      obtain ⟨b0, hb0, hb⟩ := h
      have hlen : pat.length ≤ rest.length := by
        obtain ⟨t, ht⟩ := beforeFirst_spec pat rest b0 hb0
        rw [ht]
        simp [List.length_append]
        omega
      have hp2 : hasPre pat ((c :: rest) ++ q) = false := by
        cases hq : hasPre pat ((c :: rest) ++ q) with
        | false => rfl
        | true =>
          have := hasPre_of_append_le pat (c :: rest) q hq
            (by simp [List.length_cons]; omega)
          rw [this] at hp
          cases hp
      show beforeFirst pat (c :: (rest ++ q)) = some b
      simp only [beforeFirst]
      rw [show (c :: (rest ++ q)) = (c :: rest) ++ q from rfl, hp2]
      simp only [Bool.false_eq_true, if_false]
      rw [ih q b0 hb0]
      rw [Option.map_some']
      rw [hb]

/-- Characterization of a successful extraction in terms of the search
primitives. -/
theorem extractBlock_some_iff (s j : List Char) : extractBlock s = some j ↔
    (containsSub opMarker s = true ∧ containsSub closeFence s = true ∧
      ∃ s1, afterFirst opFence s = some s1 ∧
        beforeFirst closeFence ((beforeFirst opFence s1).getD s1) = some j) := by
  unfold extractBlock
  cases hg1 : containsSub opMarker s <;> cases hg2 : containsSub closeFence s <;>
    simp [hg1, hg2]
  cases ha : afterFirst opFence s <;> simp [ha]

/-- A failed inner extraction, when an opening fence is present, means no
extraction at all. -/
theorem extractBlock_none_of_inner (s s1 : List Char)
    (ha : afterFirst opFence s = some s1)
    (hb : beforeFirst closeFence ((beforeFirst opFence s1).getD s1) = none) :
    extractBlock s = none := by
  unfold extractBlock
  cases hg : containsSub opMarker s && containsSub closeFence s with
  | false => simp
  | true => simp [ha, hb]

/-- Once the accumulated text yields an extraction, the extracted chunk is
frozen: scanning a longer accumulation either extracts the very same chunk
or extracts nothing (it can never switch to a different chunk, because
extraction always works on the region after the FIRST opening fence and up
to the first closing fence there). -/
theorem extract_frozen (P Q j : List Char) (h : extractBlock P = some j) :
    extractBlock (P ++ Q) = none ∨ extractBlock (P ++ Q) = some j := by
  rw [extractBlock_some_iff] at h
  obtain ⟨hg1, hg2, s1, ha, hb⟩ := h
  have hg1' := containsSub_append_right _ _ Q hg1
  have hg2' := containsSub_append_right _ _ Q hg2
  have ha' := afterFirst_append opFence P Q s1 ha
  cases hbo : beforeFirst opFence s1 with
  | some b =>
    rw [hbo] at hb
    simp only [Option.getD_some] at hb
    have hbo' := beforeFirst_append opFence s1 Q b hbo
    right
    rw [extractBlock_some_iff]
    refine ⟨hg1', hg2', s1 ++ Q, ha', ?_⟩
    rw [hbo']
    simpa using hb
  | none =>
    rw [hbo] at hb
    simp only [Option.getD_none] at hb
    cases hbo' : beforeFirst opFence (s1 ++ Q) with
    | none =>
      right
      rw [extractBlock_some_iff]
      refine ⟨hg1', hg2', s1 ++ Q, ha', ?_⟩
      rw [hbo']
      simpa using beforeFirst_append closeFence s1 Q j hb
    | some b' =>
      cases hbc : beforeFirst closeFence b' with
      | none =>
        left
        refine extractBlock_none_of_inner (P ++ Q) (s1 ++ Q) ha' ?_
        rw [hbo']
        simpa using hbc
      | some x =>
        have h1 : beforeFirst closeFence (s1 ++ Q) = some x := by
          obtain ⟨t, ht⟩ := beforeFirst_spec opFence (s1 ++ Q) b' hbo'
          rw [ht, List.append_assoc]
          exact beforeFirst_append closeFence b' (opFence ++ t) x hbc
        have h2 : beforeFirst closeFence (s1 ++ Q) = some j :=
          beforeFirst_append closeFence s1 Q j hb
        have hxj : x = j := by
          rw [h1] at h2
          exact (Option.some.injEq _ _).mp h2
        right
        rw [extractBlock_some_iff]
        refine ⟨hg1', hg2', s1 ++ Q, ha', ?_⟩
        rw [hbo']
        simpa [hxj] using hbc

/-- Characterization of a dispatching detection check: some chunk is
extracted, it parses, and both fields are truthy. -/
theorem detectToolCall_some_iff (s : List Char) (v : Json) :
    detectToolCall s = some v ↔
    ∃ chunk, extractBlock s = some chunk ∧ parseJson chunk = some v ∧
      (truthyOpt (getField v nameKey) && truthyOpt (getField v argumentsKey)) = true := by
  constructor
  · intro h
    unfold detectToolCall at h
    split at h
    · simp at h
    · rename_i chunk hx
      split at h
      · simp at h
      · rename_i u hu
        split at h
        · rename_i htr
          have huv : u = v := (Option.some.injEq _ _).mp h
          subst huv
          exact ⟨chunk, hx, hu, htr⟩
        · simp at h
  · rintro ⟨chunk, hx, hp, htr⟩
    unfold detectToolCall
    split
    · rename_i hnone
      rw [hnone] at hx
      cases hx
    · rename_i chunk' hx'
      rw [hx'] at hx
      have hc : chunk' = chunk := (Option.some.injEq _ _).mp hx
      subst hc
      split
      · rename_i hnone2
        rw [hnone2] at hp
        cases hp
      · rename_i u hu
        rw [hu] at hp
        have huv : u = v := (Option.some.injEq _ _).mp hp
        subst huv
        simp [htr]

/-- No extraction means the detection check keeps scanning. -/
theorem detect_none_of_extract (s : List Char) (hx : extractBlock s = none) :
    detectToolCall s = none := by
  unfold detectToolCall
  split
  · rfl
  · rename_i chunk hx'
    rw [hx'] at hx
    cases hx

/-- A chunk that fails to parse means the detection check keeps scanning
(the thrown parse error is caught at line 190). -/
theorem detect_none_of_parse (s chunk : List Char) (hx : extractBlock s = some chunk)
    (hp : parseJson chunk = none) : detectToolCall s = none := by
  unfold detectToolCall
  split
  · rfl
  · rename_i chunk' hx'
    rw [hx'] at hx
    have hc : chunk' = chunk := (Option.some.injEq _ _).mp hx
    subst hc
    split
    · rfl
    · rename_i u hu
      rw [hu] at hp
      cases hp

/-- If an earlier accumulation dispatches a payload and a later one also
dispatches, the payloads agree: dispatch always concerns the frozen first
chunk. -/
theorem detect_agree (P Q : List Char) (w v : Json)
    (hP : detectToolCall P = some w) (hT : detectToolCall (P ++ Q) = some v) :
    w = v := by
  rw [detectToolCall_some_iff] at hP hT
  obtain ⟨cP, hxP, hpP, _⟩ := hP
  obtain ⟨cT, hxT, hpT, _⟩ := hT
  rcases extract_frozen P Q cP hxP with hn | hs
  · rw [hn] at hxT
    cases hxT
  · rw [hs] at hxT
    have hc : cP = cT := (Option.some.injEq _ _).mp hxT
    subst hc
    rw [hpP] at hpT
    exact (Option.some.injEq _ _).mp hpT

/-- Core of claim C4 (amended): whenever the COMPLETE text of the stream
passes the detection check with payload `v`, every tokenization of that text
makes the loop dispatch, and it dispatches exactly that payload. The loop
fires at the first prefix whose check succeeds; by `detect_agree` that
prefix's payload is the complete text's payload. -/
theorem runDetect_dispatch : ∀ (ts : List (List Char)) (acc : List Char) (v : Json),
    detectToolCall (acc ++ joinList ts) = some v → detectToolCall acc = none →
    runDetect ts acc = StreamOutcome.dispatching v := by
  intro ts
  induction ts with
  | nil =>
    intro acc v h1 h2
    rw [show joinList [] = [] from rfl, List.append_nil] at h1
    rw [h1] at h2
    cases h2
  | cons t ts ih =>
    intro acc v h1 h2
    rw [show joinList (t :: ts) = t ++ joinList ts from rfl, ← List.append_assoc] at h1
    cases hd : detectToolCall (acc ++ t) with
    | some w =>
      have hw : w = v := detect_agree (acc ++ t) (joinList ts) w v hd h1
      subst hw
      simp [runDetect, hd]
    | none =>
      have htail := ih (acc ++ t) v h1 hd
      simp [runDetect, hd, htail]

/-- Core of claim C5 (amended): when the complete text's extraction is a
chunk that fails to parse, no prefix ever dispatches — every prefix's
extraction is either nothing or that same frozen chunk — so the invocation
ends with the full text. -/
theorem runDetect_done_of_badParse : ∀ (ts : List (List Char)) (acc j : List Char),
    extractBlock (acc ++ joinList ts) = some j → parseJson j = none →
    runDetect ts acc = StreamOutcome.done (acc ++ joinList ts) := by
  intro ts
  induction ts with
  | nil =>
    intro acc j h1 h2
    rw [show joinList [] = [] from rfl, List.append_nil]
    rfl
  | cons t ts ih =>
    intro acc j h1 h2
    rw [show joinList (t :: ts) = t ++ joinList ts from rfl, ← List.append_assoc] at h1 ⊢
    have hnone : detectToolCall (acc ++ t) = none := by
      cases hx : extractBlock (acc ++ t) with
      | none => exact detect_none_of_extract _ hx
      | some chunk =>
        rcases extract_frozen (acc ++ t) (joinList ts) chunk hx with hn | hs
        · rw [hn] at h1
          cases h1
        · rw [hs] at h1
          have hc : chunk = j := (Option.some.injEq _ _).mp h1
          subst hc
          exact detect_none_of_parse _ chunk hx h2
    simp only [runDetect, hnone]
    exact ih (acc ++ t) j h1 h2

/-- Core of claim C7: if no inspected accumulation passes the detection
check, the invocation ends with the full accumulated text and never
dispatches. -/
theorem runDetect_done_of_allNone : ∀ (ts : List (List Char)) (acc : List Char),
    (∀ P ∈ accumsFrom acc ts, detectToolCall P = none) →
    runDetect ts acc = StreamOutcome.done (acc ++ joinList ts) := by
  intro ts
  induction ts with
  | nil =>
    intro acc _
    rw [show joinList [] = [] from rfl, List.append_nil]
    rfl
  | cons t ts ih =>
    intro acc h
    have hhead : detectToolCall (acc ++ t) = none :=
      h (acc ++ t) (by simp [accumsFrom])
    have htail : ∀ P ∈ accumsFrom (acc ++ t) ts, detectToolCall P = none := by
      intro P hP
      exact h P (by simp [accumsFrom, hP])
    rw [show joinList (t :: ts) = t ++ joinList ts from rfl, ← List.append_assoc]
    simp only [runDetect, hhead]
    exact ih (acc ++ t) htail

/-- A text of nothing but trimmed-away characters trims to nothing. -/
theorem jsTrim_eq_nil (text : List Char) (h : ∀ c ∈ text, jsWs c = true) :
    jsTrim text = [] := by
  unfold jsTrim
  have h1 : text.dropWhile jsWs = [] := by
    rw [List.dropWhile_eq_nil_iff]
    simpa using h
  rw [h1]
  rfl

/-- A parsed chunk whose two designated fields are not both truthy keeps the
scan going. -/
theorem detect_none_of_falsy (s chunk : List Char) (u : Json)
    (hx : extractBlock s = some chunk) (hp : parseJson chunk = some u)
    (htr : (truthyOpt (getField u nameKey) && truthyOpt (getField u argumentsKey)) = false) :
    detectToolCall s = none := by
  unfold detectToolCall
  split
  · rfl
  · rename_i chunk' hx'
    rw [hx'] at hx
    have hc : chunk' = chunk := (Option.some.injEq _ _).mp hx
    subst hc
    split
    · rfl
    · rename_i w hw
      rw [hw] at hp
      have hwu : w = u := (Option.some.injEq _ _).mp hp
      subst hwu
      rw [htr]
      simp

/-- Claim C1 (code bug): `sendMessage` does NOT route each response to the
request carrying its correlation id. With requests of ids 10 and 20
dispatched concurrently, the second `sendMessage` overwrites the single
`transport.onmessage` handler, which ignores response ids: when the response
carrying id 10 arrives, it settles the id-20 request's future with the
id-10 result, and the id-10 request's future stays pending forever. -/
theorem claimC1_response_misrouted :
    c1Run.pending[0]? = some ⟨10, none⟩ ∧
    c1Run.pending[1]? =
      some ⟨20, some (ReqOutcome.resolvedWith (some (Json.str "result-for-10")))⟩ :=
  ⟨rfl, rfl⟩

/-- Claim C2 (code bug): the client does not give simultaneously outstanding
requests distinct correlation ids and keeps no outstanding set: every
`listTools` request carries the hardcoded id 1 and every `callTool` request
the hardcoded id 2, so two concurrently outstanding `listTools` requests
share id 1. -/
theorem claimC2_correlation_id_reused :
    listToolsMsg.id = 1 ∧ (callToolMsg "x" (Json.obj [])).id = 2 ∧
    c2Run.pending[0]? = some ⟨1, none⟩ ∧ c2Run.pending[1]? = some ⟨1, none⟩ :=
  ⟨rfl, rfl, rfl, rfl⟩

/-- Claim C3 (code bug): stopping the channel while two requests are
outstanding does NOT settle them both with a transport failure. Even
granting that killing the child surfaces as `transport.onerror`, only the
most recently sent request's callbacks are installed, so only that request
rejects; the earlier request's future stays pending forever. -/
theorem claimC3_stop_leaves_earlier_request_pending :
    c3Run.pending[0]? = some ⟨1, none⟩ ∧
    c3Run.pending[1]? = some ⟨2, some ReqOutcome.rejectedTransport⟩ :=
  ⟨rfl, rfl⟩

/-- Claim C4 (amended): for every partition of a text into tokens, IF the
detection check on the complete text dispatches payload `v`, then the token
loop reaches DISPATCHING exactly once with exactly `v`, regardless of the
partition. (The original claim, quantifying over all texts containing a
valid fenced block, fails: see the counterexample, where the closing fence
simultaneously starts a second opening fence.) -/
theorem claimC4_partition_invariance (ts : List (List Char)) (v : Json)
    (h : detectToolCall (joinList ts) = some v) :
    runDetect ts [] = StreamOutcome.dispatching v :=
  runDetect_dispatch ts [] v h rfl

/-- Witness for claim C4: the spec's example block, streamed one character
per token, satisfies the hypothesis and dispatches `\x7bname: x,
arguments: \x7b\x7d\x7d`. -/
theorem claimC4_partition_invariance_witness :
    detectToolCall (joinList (charTokens exampleCallText)) = some toolCallX ∧
    runDetect (charTokens exampleCallText) [] = StreamOutcome.dispatching toolCallX :=
  ⟨rfl, claimC4_partition_invariance (charTokens exampleCallText) toolCallX rfl⟩

/-- Counterexample to claim C4 as stated: `fenceReuseText` contains a
complete, valid fenced tool-call block (opening fence, payload, closing
fence), yet the one-character-per-token partition dispatches while the
single-token partition of the SAME text ends with no dispatch at all — the
second opening fence truncates `parts[1]` of the split, hiding the closing
fence. Detection is therefore sensitive to token boundaries. -/
theorem claimC4_boundary_sensitivity_counterexample :
    runDetect (charTokens fenceReuseText) [] = StreamOutcome.dispatching toolCallX ∧
    runDetect [fenceReuseText.data] [] = StreamOutcome.done fenceReuseText.data :=
  ⟨rfl, rfl⟩

/-- Claim C5 (amended): when a fenced block's content fails to parse, the
detector keeps scanning (the parse error surfaces as a caught, logged
exception at lines 190-192, not a crash), but no later fenced block is ever
examined: extraction always returns the stream's FIRST block content, so
whenever the complete text's extraction is an unparseable chunk, the whole
invocation ends in DONE with the full text, for every tokenization. -/
theorem claimC5_malformed_first_block_never_dispatches (ts : List (List Char))
    (j : List Char) (hx : extractBlock (joinList ts) = some j)
    (hp : parseJson j = none) :
    runDetect ts [] = StreamOutcome.done (joinList ts) :=
  runDetect_done_of_badParse ts [] j hx hp

/-- Witness for claim C5: `badThenGoodText` streamed one character per token
extracts the malformed `notjson` chunk and ends in DONE. -/
theorem claimC5_malformed_first_block_never_dispatches_witness :
    extractBlock (joinList (charTokens badThenGoodText)) = some badChunk ∧
    parseJson badChunk = none ∧
    runDetect (charTokens badThenGoodText) [] =
      StreamOutcome.done (joinList (charTokens badThenGoodText)) :=
  ⟨rfl, rfl,
    claimC5_malformed_first_block_never_dispatches (charTokens badThenGoodText)
      badChunk rfl rfl⟩

/-- Counterexample to claim C5 as stated: in `badThenGoodText` the first
fenced block is malformed and a later fenced block is exactly the text
`exampleCallText`, a valid tool call the detector dispatches when it stands
alone — yet the full stream, delivered one character per token, never
dispatches and ends in DONE with the whole text. -/
theorem claimC5_later_valid_block_missed_counterexample :
    runDetect (charTokens badThenGoodText) [] =
      StreamOutcome.done badThenGoodText.data ∧
    detectToolCall exampleCallText.data = some toolCallX :=
  ⟨rfl, rfl⟩

/-- Claim C6 (amended): for a fenced block whose content parses as JSON,
the dispatch decision is JavaScript TRUTHINESS of the two fields, not their
presence: with both fields truthy the invocation dispatches the parsed
object; otherwise — including fields that are present but bound to falsy
values such as the empty string — the block is treated as ordinary text and
scanning continues with the same accumulator. -/
theorem claimC6_truthiness_decides_dispatch (s j : List Char) (v : Json)
    (rest : List (List Char))
    (hx : extractBlock s = some j) (hp : parseJson j = some v) :
    ((truthyOpt (getField v nameKey) && truthyOpt (getField v argumentsKey)) = true →
      runDetect (s :: rest) [] = StreamOutcome.dispatching v) ∧
    ((truthyOpt (getField v nameKey) && truthyOpt (getField v argumentsKey)) = false →
      runDetect (s :: rest) [] = runDetect rest s) := by
  constructor
  · intro htr
    have hd : detectToolCall s = some v :=
      (detectToolCall_some_iff s v).mpr ⟨j, hx, hp, htr⟩
    simp [runDetect, hd]
  · intro htr
    have hd : detectToolCall s = none := detect_none_of_falsy s j v hx hp htr
    simp [runDetect, hd]

/-- Witness for claim C6: `callYText` carries truthy `name` and `arguments`
fields and dispatches its parsed object. -/
theorem claimC6_truthiness_decides_dispatch_witness :
    extractBlock callYText.data = some callYChunk ∧
    parseJson callYChunk = some toolCallY ∧
    runDetect [callYText.data] [] = StreamOutcome.dispatching toolCallY :=
  ⟨rfl, rfl,
    (claimC6_truthiness_decides_dispatch callYText.data callYChunk toolCallY []
      rfl rfl).1 rfl⟩

/-- Counterexample to claim C6 as stated: the block of `emptyNameText`
parses as an object in which BOTH a `name` field and an `arguments` field
are present, yet the detector does not dispatch — the decision depends on
the fields' values (the empty string is falsy), not only on their
presence. -/
theorem claimC6_presence_counterexample :
    parseJson emptyNameChunk = some emptyNameValue ∧
    (getField emptyNameValue nameKey).isSome = true ∧
    (getField emptyNameValue argumentsKey).isSome = true ∧
    extractBlock emptyNameText.data = some emptyNameChunk ∧
    detectToolCall emptyNameText.data = none :=
  ⟨rfl, rfl, rfl, rfl, rfl⟩

/-- Claim C7 (amended): for every token stream in which no inspected
accumulation passes the detection check, the invocation ends in DONE with
the full accumulated text and no tool is dispatched; the full text then
becomes the assistant's appended turn PROVIDED it is not whitespace-only
(the guard at line 204 silently discards whitespace-only text — see the
counterexample). -/
theorem claimC7_plain_text_reaches_done (ts : List (List Char)) (hist : List ChatTurn)
    (hnone : ∀ P ∈ accumsFrom [] ts, detectToolCall P = none)
    (hnws : jsTrim (joinList ts) ≠ []) :
    runDetect ts [] = StreamOutcome.done (joinList ts) ∧
    appendAssistantTurn hist (joinList ts) = hist ++ [⟨"assistant", joinList ts⟩] := by
  constructor
  · exact runDetect_done_of_allNone ts [] hnone
  · unfold appendAssistantTurn
    rw [if_neg hnws]

/-- Witness for claim C7: the single-token stream `hi` has no fenced block,
ends in DONE with `hi`, and appends the assistant turn. -/
theorem claimC7_plain_text_reaches_done_witness :
    (∀ P ∈ accumsFrom [] ["hi".data], detectToolCall P = none) ∧
    jsTrim (joinList ["hi".data]) ≠ [] ∧
    runDetect ["hi".data] [] = StreamOutcome.done (joinList ["hi".data]) ∧
    appendAssistantTurn [] (joinList ["hi".data]) =
      [⟨"assistant", joinList ["hi".data]⟩] := by
  have hnone : ∀ P ∈ accumsFrom [] ["hi".data], detectToolCall P = none := by
    intro P hP
    have hP' : P = "hi".data := by
      simpa [accumsFrom] using hP
    subst hP'
    rfl
  have hnws : jsTrim (joinList ["hi".data]) ≠ [] := by decide
  obtain ⟨h1, h2⟩ := claimC7_plain_text_reaches_done ["hi".data] [] hnone hnws
  refine ⟨hnone, hnws, h1, ?_⟩
  rw [h2]
  rfl

/-- Counterexample to claim C7 as stated: a stream consisting of one space
contains no fenced block and ends in DONE with that text, but the
accumulated text does NOT become an appended assistant turn — the history
stays empty, because `finalContent.trim()` is falsy. -/
theorem claimC7_whitespace_counterexample :
    runDetect [[' ']] [] = StreamOutcome.done [' '] ∧
    appendAssistantTurn [] [' '] = [] ∧
    appendAssistantTurn [] [' '] ≠ [⟨"assistant", [' ']⟩] :=
  ⟨rfl, rfl, by decide⟩

/-- Claim C8 (amended): the adapter is a pure function that copies `name`
and `description` verbatim, keeps for each declared parameter only its
`type` (verbatim) and its `description` — except that an EMPTY-STRING
description is dropped, since `prop.description || undefined` replaces
falsy values by `undefined` — drops every other per-parameter field, copies
the `required` list verbatim and substitutes the empty list when it is
absent. -/
theorem claimC8_adapter_amended (tool : MCPToolDef) :
    convertTool tool = specSchemaAdapterAmended tool := by
  unfold convertTool specSchemaAdapterAmended
  have hmap : ∀ (l : List (String × ParamProp)),
      l.map (fun kp => (kp.1, (⟨kp.2.type, descOrUndef kp.2.description⟩ : OllamaParamProp))) =
      l.map (fun kp => (kp.1, (⟨kp.2.type,
        match kp.2.description with
        | none => none
        | some d => if d = "" then none else some d⟩ : OllamaParamProp))) := by
    intro l
    induction l with
    | nil => rfl
    | cons kp rest ih =>
      simp only [List.map_cons, ih]
      cases hd : kp.2.description with
      | none => simp [descOrUndef, hd]
      | some d => simp [descOrUndef, hd]
  rw [hmap]

/-- Witness for claim C8: the amended description of the adapter matches
the code on the concrete tool `c8Tool`. -/
theorem claimC8_adapter_amended_witness :
    convertTool c8Tool = specSchemaAdapterAmended c8Tool :=
  claimC8_adapter_amended c8Tool

/-- Counterexample to claim C8 as stated: on a tool whose parameter `a`
declares the empty string as its description, the adapter does NOT copy the
description — the converted parameter has no description at all, differing
from the claim's verbatim copy (while the `enum` field is indeed
dropped). -/
theorem claimC8_empty_description_counterexample :
    convertTool c8Tool ≠ specSchemaAdapter c8Tool ∧
    (convertTool c8Tool).function.parameters.properties =
      [("a", ⟨some "string", none⟩)] ∧
    (specSchemaAdapter c8Tool).function.parameters.properties =
      [("a", ⟨some "string", some ""⟩)] :=
  ⟨by decide, rfl, rfl⟩

/-- Claim C9 (confirmed): dispatching `callTool` with name `x` sends the
`tools/call` request with those params, and when the peer replies with
`isError: false` and content `[\x7btext: ok\x7d]`, exactly one new turn is
appended to the history, whose content is `Tool x output:` followed by a
newline and the joined content texts. -/
theorem claimC9_tool_output_turn (hist : List ChatTurn) :
    (callToolMsg "x" (Json.obj [("a", Json.num 1)])).params =
      Json.obj [("name", Json.str "x"),
        ("arguments", Json.obj [("a", Json.num 1)])] ∧
    handleToolResult hist "x".data okReply =
      some (hist ++ [⟨"user", "Tool x output:\nok".data⟩]) := by
  refine ⟨rfl, ?_⟩
  have h : handleToolResult hist "x".data okReply =
      some (hist ++ [⟨"user",
        "Tool ".data ++ "x".data ++ " output:\n".data ++
          List.intercalate ['\n'] (okReply.content.map (·.text))⟩]) := rfl
  rw [h]
  have hc : "Tool ".data ++ "x".data ++ " output:\n".data ++
      List.intercalate ['\n'] (okReply.content.map (·.text)) =
      "Tool x output:\nok".data := by decide
  rw [hc]

/-- Witness for claim C9 at the empty history. -/
theorem claimC9_tool_output_turn_witness :
    handleToolResult [] "x".data okReply =
      some [⟨"user", "Tool x output:\nok".data⟩] := by
  have h := (claimC9_tool_output_turn []).2
  rw [h]
  rfl

/-- Claim C10 (confirmed): when the final accumulated text is empty or
whitespace-only, `finalContent.trim()` is falsy and no assistant turn is
appended: the history is returned unchanged. -/
theorem claimC10_whitespace_not_appended (hist : List ChatTurn) (text : List Char)
    (h : ∀ c ∈ text, jsWs c = true) :
    appendAssistantTurn hist text = hist := by
  unfold appendAssistantTurn
  rw [if_pos (jsTrim_eq_nil text h)]

/-- Witness for claim C10: a space-tab-newline text leaves a one-turn
history unchanged. -/
theorem claimC10_whitespace_not_appended_witness :
    (∀ c ∈ " \t\n".data, jsWs c = true) ∧
    appendAssistantTurn [⟨"user", "q".data⟩] " \t\n".data = [⟨"user", "q".data⟩] :=
  ⟨by decide, claimC10_whitespace_not_appended [⟨"user", "q".data⟩] " \t\n".data (by decide)⟩
